import Mathlib

set_option maxHeartbeats 1000000

/-!
Shallow embedding of the SheetComparePro comparison engine
(`src/services/excelService.ts` together with the shapes in `src/types.ts`).

Cells are a closed variant over the scalar values the engine sees
(string, number, boolean, null); a JS object row is an association list
observed through `getCell` (JS `row[col]`, `none` = property absent).
The JS `Map` used for indexing is an insertion-order association list:
`set` on an existing key updates the value in place, `forEach` iterates
in insertion order.  Numbers are modelled as integers with decimal
stringification, matching JS `String(n)` on integral values.
-/

/-- A scalar cell value: string, number, boolean, or null. -/
inductive Value where
  | vStr : String → Value
  | vNum : Int → Value
  | vBool : Bool → Value
  | vNull : Value
deriving DecidableEq, Repr

/-- JS `String(value)` coercion for the values the engine stringifies. -/
def valueToString : Value → String
  | .vStr s => s
  | .vNum n => toString n
  | .vBool b => if b then "true" else "false"
  | .vNull => "null"

/-- JS `String.prototype.trim`: drop whitespace from both ends. -/
def strTrim (s : String) : String :=
  ⟨((s.data.dropWhile Char.isWhitespace).reverse.dropWhile Char.isWhitespace).reverse⟩

/-- JS `String.prototype.toLowerCase` (on the characters the engine meets). -/
def strToLower (s : String) : String :=
  ⟨s.data.map Char.toLower⟩

/-- Function `normalizeValue` from excelService.ts: null/undefined become `""`,
otherwise `String(val).trim()`, lower-cased when `ignoreCase`. -/
def normalizeValue (val : Option Value) (ignoreCase : Bool) : String :=
  match val with
  | none => ""
  | some Value.vNull => ""
  | some v =>
    let str := strTrim (valueToString v)
    if ignoreCase then strToLower str else str

/-- A row: a JS object mapping column names to cell values. -/
abbrev Row := List (String × Value)

/-- JS property read `row[col]`; `none` models `undefined` (absent). -/
def getCell (row : Row) (col : String) : Option Value :=
  (row.find? fun p => p.1 == col).map (·.2)

/-- Shape `FileData` from types.ts. -/
structure FileData where
  name : String
  data : List Row
  columns : List String
deriving DecidableEq, Repr

/-- Shape `ComparisonConfig` from types.ts. -/
structure ComparisonConfig where
  primaryKey : String
  ignoreCase : Bool
deriving DecidableEq, Repr

/-- Enum `ChangeType` from types.ts. -/
inductive ChangeType where
  | UNCHANGED : ChangeType
  | UPDATED : ChangeType
  | NEW : ChangeType
  | REMOVED : ChangeType
deriving DecidableEq, Repr

/-- Shape `ProcessedRow` from types.ts: the row's data fields plus the three
`_meta_` fields (change type, changed columns, row id). -/
structure ProcessedRow where
  data : Row
  changeType : ChangeType
  changedColumns : List String
  rowId : String
deriving DecidableEq, Repr

/-- Shape `ComparisonStats` from types.ts. -/
structure ComparisonStats where
  total : Nat
  new : Nat
  updated : Nat
  removed : Nat
  unchanged : Nat
deriving DecidableEq, Repr

/-- Shape `ComparisonResult` from types.ts. -/
structure ComparisonResult where
  rows : List ProcessedRow
  allColumns : List String
  stats : ComparisonStats
  primaryKey : String
deriving DecidableEq, Repr

/-- JS `Map.has`. -/
def mapHas (m : List (String × Row)) (k : String) : Bool :=
  m.any fun p => p.1 == k

/-- JS `Map.get` (`none` = `undefined`). -/
def mapGet (m : List (String × Row)) (k : String) : Option Row :=
  (m.find? fun p => p.1 == k).map (·.2)

/-- JS `Map.set`: updating an existing key keeps its original position
(insertion order), a fresh key is appended. -/
def mapSet (m : List (String × Row)) (k : String) (v : Row) : List (String × Row) :=
  if mapHas m k then m.map fun p => if p.1 == k then (k, v) else p
  else m ++ [(k, v)]

/-- The indexing guard from excelService.ts lines 64/73:
`keyVal !== undefined && keyVal !== null && keyVal !== ''`. -/
def isValidKey : Value → Bool
  | .vNull => false
  | .vStr s => !(s == "")
  | .vNum _ => true
  | .vBool _ => true

/-- One step of the indexing loop: read the primary-key cell, skip
absent/null/empty keys, otherwise `map.set(String(keyVal), row)`. -/
def indexStep (pk : String) (m : List (String × Row)) (row : Row) : List (String × Row) :=
  match getCell row pk with
  | none => m
  | some keyVal => if isValidKey keyVal then mapSet m (valueToString keyVal) row else m

/-- Index a dataset by primary key (steps 1 and 2 of `compareDatasets`). -/
def buildIndex (data : List Row) (pk : String) : List (String × Row) :=
  data.foldl (indexStep pk) []

/-- The string key under which a row would be indexed, if any:
`some (String(row[pk]))` when the guard passes, else `none`. -/
def validKeyString (pk : String) (row : Row) : Option String :=
  match getCell row pk with
  | none => none
  | some keyVal => if isValidKey keyVal then some (valueToString keyVal) else none

/-- The last row of `data` (in dataset order) indexed under key `k`:
the row that last-write-wins leaves in the index. -/
def lastMatch (data : List Row) (pk k : String) : Option Row :=
  data.reverse.find? fun row => validKeyString pk row == some k

/-- Append a string unless already present (JS `Set` insertion). -/
def addUnique (acc : List String) (x : String) : List String :=
  if acc.any (· == x) then acc else acc ++ [x]

/-- First-seen-order deduplication, as `Array.from(new Set(xs))`. -/
def dedupKeep (xs : List String) : List String :=
  xs.foldl addUnique []

/-- Step 3 of `compareDatasets`: `new Set([...base.columns, ...live.columns])`. -/
def unionColumns (baseCols liveCols : List String) : List String :=
  dedupKeep (baseCols ++ liveCols)

/-- The changed-columns loop for a matched pair: every union column other
than the primary key whose normalized base and live values differ,
in column-union order. -/
def diffColumns (cols : List String) (pk : String) (ic : Bool) (baseRow liveRow : Row) :
    List String :=
  cols.filter fun col =>
    !(col == pk) && !(normalizeValue (getCell baseRow col) ic == normalizeValue (getCell liveRow col) ic)

/-- The spread merge `{...baseRow, ...liveRow}`: base's keys in base order
with live's value where live has the key, then live-only keys in live order. -/
def mergeRow (baseRow liveRow : Row) : Row :=
  (baseRow.map fun p =>
    match getCell liveRow p.1 with
    | some v => (p.1, v)
    | none => p)
  ++ liveRow.filter fun q => !(baseRow.any fun p => p.1 == q.1)

/-- Step 4 of `compareDatasets`, per base-index entry: REMOVED when the key
is absent from the live index, otherwise UPDATED with the merged row when
some column differs, else UNCHANGED. -/
def classifyBase (liveMap : List (String × Row)) (cols : List String) (pk : String)
    (ic : Bool) (e : String × Row) : ProcessedRow :=
  match mapGet liveMap e.1 with
  | none => { data := e.2, changeType := .REMOVED, changedColumns := [], rowId := e.1 }
  | some liveRow =>
    let changed := diffColumns cols pk ic e.2 liveRow
    if changed.isEmpty then
      { data := e.2, changeType := .UNCHANGED, changedColumns := [], rowId := e.1 }
    else
      { data := mergeRow e.2 liveRow, changeType := .UPDATED, changedColumns := changed,
        rowId := e.1 }

/-- Step 5 of `compareDatasets`, per live-index entry: a NEW row when the
key is absent from the base index. -/
def newRowOf (baseMap : List (String × Row)) (e : String × Row) : Option ProcessedRow :=
  if mapHas baseMap e.1 then none
  else some { data := e.2, changeType := .NEW, changedColumns := [], rowId := e.1 }

/-- The statistics accumulated by the push loops: one counter bump per
emitted row of each classification, and `total = processedRows.length`. -/
def statsOf (rows : List ProcessedRow) : ComparisonStats :=
  { total := rows.length
    new := rows.countP fun r => r.changeType == .NEW
    updated := rows.countP fun r => r.changeType == .UPDATED
    removed := rows.countP fun r => r.changeType == .REMOVED
    unchanged := rows.countP fun r => r.changeType == .UNCHANGED }

/-- Function `compareDatasets` from excelService.ts. -/
def compareDatasets (baseFile liveFile : FileData) (config : ComparisonConfig) :
    ComparisonResult :=
  let pk := config.primaryKey
  let ic := config.ignoreCase
  let baseMap := buildIndex baseFile.data pk
  let liveMap := buildIndex liveFile.data pk
  let allColumns := unionColumns baseFile.columns liveFile.columns
  let matchedRows := baseMap.map (classifyBase liveMap allColumns pk ic)
  let newRows := liveMap.filterMap (newRowOf baseMap)
  let rows := matchedRows ++ newRows
  { rows := rows
    allColumns := allColumns
    stats := statsOf rows
    primaryKey := pk }

/-! Lemmas about the insertion-order map -/

theorem mapHas_iff (m : List (String × Row)) (k : String) :
    mapHas m k = true ↔ ∃ p ∈ m, p.1 = k := by
  simp [mapHas, List.any_eq_true]

theorem mapGet_cons_self (p : String × Row) (m : List (String × Row)) (k : String)
    (h : p.1 = k) : mapGet (p :: m) k = some p.2 := by
  simp [mapGet, List.find?_cons, h]

theorem mapGet_cons_ne (p : String × Row) (m : List (String × Row)) (k : String)
    (h : p.1 ≠ k) : mapGet (p :: m) k = mapGet m k := by
  simp [mapGet, List.find?_cons, h]

theorem mapGet_eq_none (m : List (String × Row)) (k : String)
    (h : mapHas m k = false) : mapGet m k = none := by
  have hf : m.find? (fun p => p.1 == k) = none := by
    rw [List.find?_eq_none]
    intro p hp hbeq
    rw [beq_iff_eq] at hbeq
    have : mapHas m k = true := (mapHas_iff m k).mpr ⟨p, hp, hbeq⟩
    exact absurd this (by simp [h])
  simp [mapGet, hf]

theorem mapGet_append (m m' : List (String × Row)) (k : String) :
    mapGet (m ++ m') k = (mapGet m k).or (mapGet m' k) := by
  cases hf : m.find? (fun p => p.1 == k) with
  | none => simp [mapGet, List.find?_append, hf]
  | some p => simp [mapGet, List.find?_append, hf]

theorem mapGet_replace_self (m : List (String × Row)) (k : String) (v : Row)
    (h : mapHas m k = true) :
    mapGet (m.map fun p => if p.1 == k then (k, v) else p) k = some v := by
  induction m with
  | nil => simp [mapHas] at h
  | cons p rest ih =>
    rw [List.map_cons]
    by_cases hp : p.1 = k
    · rw [if_pos (by simp [hp])]
      exact mapGet_cons_self (k, v) _ k rfl
    · have hrest : mapHas rest k = true := by
        have h' := (mapHas_iff _ k).mp h
        rcases h' with ⟨q, hq, hqk⟩
        rcases List.mem_cons.mp hq with hq | hq
        · exact absurd (hq ▸ hqk) hp
        · exact (mapHas_iff _ k).mpr ⟨q, hq, hqk⟩
      rw [if_neg (by simp [hp])]
      rw [mapGet_cons_ne p _ k hp]
      exact ih hrest

theorem mapGet_replace_ne (m : List (String × Row)) (k q : String) (v : Row)
    (hqk : q ≠ k) :
    mapGet (m.map fun p => if p.1 == k then (k, v) else p) q = mapGet m q := by
  induction m with
  | nil => rfl
  | cons p rest ih =>
    rw [List.map_cons]
    by_cases hp : p.1 = k
    · rw [if_pos (by simp [hp])]
      rw [mapGet_cons_ne (k, v) _ q (Ne.symm hqk)]
      rw [mapGet_cons_ne p rest q (by rw [hp]; exact Ne.symm hqk)]
      exact ih
    · rw [if_neg (by simp [hp])]
      by_cases hpq : p.1 = q
      · rw [mapGet_cons_self p _ q hpq, mapGet_cons_self p rest q hpq]
      · rw [mapGet_cons_ne p _ q hpq, mapGet_cons_ne p rest q hpq]
        exact ih

theorem mapGet_mapSet_self (m : List (String × Row)) (k : String) (v : Row) :
    mapGet (mapSet m k v) k = some v := by
  unfold mapSet
  by_cases h : mapHas m k = true
  · rw [if_pos h]
    exact mapGet_replace_self m k v h
  · rw [if_neg h, mapGet_append, mapGet_eq_none m k (by simp at h; exact h)]
    simp [mapGet_cons_self (k, v) [] k rfl]

theorem mapGet_mapSet_ne (m : List (String × Row)) (k q : String) (v : Row)
    (hqk : q ≠ k) : mapGet (mapSet m k v) q = mapGet m q := by
  unfold mapSet
  by_cases h : mapHas m k = true
  · rw [if_pos h]
    exact mapGet_replace_ne m k q v hqk
  · rw [if_neg h, mapGet_append]
    rw [mapGet_cons_ne (k, v) [] q (Ne.symm hqk)]
    cases hm : mapGet m q with
    | none => simp [mapGet]
    | some r => simp

theorem indexStep_eq (pk : String) (m : List (String × Row)) (row : Row) :
    indexStep pk m row =
      match validKeyString pk row with
      | some k => mapSet m k row
      | none => m := by
  unfold indexStep validKeyString
  cases getCell row pk with
  | none => rfl
  | some v =>
    by_cases h : isValidKey v = true
    · simp [h]
    · simp [h]

theorem lastMatch_cons (pk k : String) (row : Row) (rest : List Row) :
    lastMatch (row :: rest) pk k =
      (lastMatch rest pk k).or
        (if validKeyString pk row = some k then some row else none) := by
  unfold lastMatch
  simp only [List.reverse_cons, List.find?_append]
  congr 1
  by_cases h : validKeyString pk row = some k
  · simp [h]
  · simp [h]

theorem mapGet_foldl_indexStep (pk k : String) (data : List Row) :
    ∀ m, mapGet (data.foldl (indexStep pk) m) k =
      (lastMatch data pk k).or (mapGet m k) := by
  induction data with
  | nil => intro m; simp [lastMatch, mapGet]
  | cons row rest ih =>
    intro m
    rw [List.foldl_cons, ih, lastMatch_cons, Option.or_assoc]
    congr 1
    rw [indexStep_eq]
    cases hv : validKeyString pk row with
    | none => simp [hv]
    | some k' =>
      by_cases hk : k = k'
      · subst hk
        simp [hv, mapGet_mapSet_self]
      · have hk' : ¬ k' = k := fun h => hk h.symm
        simp [hv, hk', mapGet_mapSet_ne m k' k row hk]

/-- Last write wins: the index maps `k` to the last row of the dataset
whose valid key stringifies to `k`. -/
theorem mapGet_buildIndex (data : List Row) (pk k : String) :
    mapGet (buildIndex data pk) k = lastMatch data pk k := by
  unfold buildIndex
  rw [mapGet_foldl_indexStep]
  simp [mapGet]

theorem mapSet_forall {P : String × Row → Prop} (m : List (String × Row))
    (k : String) (v : Row) (hm : ∀ e ∈ m, P e) (hkv : P (k, v)) :
    ∀ e ∈ mapSet m k v, P e := by
  intro e he
  unfold mapSet at he
  by_cases h : mapHas m k = true
  · simp only [h, if_true, List.mem_map] at he
    obtain ⟨p, hp, hfe⟩ := he
    by_cases hpk : p.1 = k
    · simp only [hpk, beq_self_eq_true, if_true] at hfe
      exact hfe ▸ hkv
    · simp only [hpk, beq_iff_eq, if_false] at hfe
      exact hfe ▸ hm p hp
  · rw [if_neg h] at he
    rcases List.mem_append.mp he with he | he
    · exact hm e he
    · exact (List.mem_singleton.mp he) ▸ hkv

/-- Every index entry `(k, row)` satisfies `validKeyString pk row = some k`:
only rows passing the key guard are indexed, under their stringified key. -/
theorem buildIndex_entry (data : List Row) (pk : String) :
    ∀ e ∈ buildIndex data pk, validKeyString pk e.2 = some e.1 := by
  unfold buildIndex
  suffices h : ∀ m, (∀ e ∈ m, validKeyString pk e.2 = some e.1) →
      ∀ e ∈ data.foldl (indexStep pk) m, validKeyString pk e.2 = some e.1 by
    exact h [] (by simp)
  induction data with
  | nil => intro m hm; simpa using hm
  | cons row rest ih =>
    intro m hm
    rw [List.foldl_cons]
    apply ih
    rw [indexStep_eq]
    cases hv : validKeyString pk row with
    | none => exact hm
    | some k' => exact mapSet_forall m k' row hm hv

theorem map_fst_replace (m : List (String × Row)) (k : String) (v : Row) :
    ((m.map fun p => if p.1 == k then (k, v) else p).map Prod.fst) = m.map Prod.fst := by
  rw [List.map_map]
  apply List.map_congr_left
  intro p _
  by_cases hp : p.1 = k
  · simp [hp]
  · simp [hp]

theorem nodup_keys_mapSet (m : List (String × Row)) (k : String) (v : Row)
    (h : (m.map Prod.fst).Nodup) : ((mapSet m k v).map Prod.fst).Nodup := by
  unfold mapSet
  by_cases hh : mapHas m k = true
  · rw [if_pos hh, map_fst_replace]
    exact h
  · rw [if_neg hh, List.map_append]
    simp only [List.map_cons, List.map_nil]
    rw [List.nodup_append]
    refine ⟨h, List.nodup_singleton k, ?_⟩
    intro a ha hb
    rw [List.mem_singleton] at hb
    subst hb
    rcases List.mem_map.mp ha with ⟨p, hp, hpk⟩
    exact absurd ((mapHas_iff m a).mpr ⟨p, hp, hpk⟩) hh

/-- The index's keys are distinct. -/
theorem buildIndex_keys_nodup (data : List Row) (pk : String) :
    ((buildIndex data pk).map Prod.fst).Nodup := by
  unfold buildIndex
  suffices h : ∀ m, (m.map Prod.fst).Nodup →
      ((data.foldl (indexStep pk) m).map Prod.fst).Nodup from h [] (by simp)
  induction data with
  | nil => intro m hm; simpa using hm
  | cons row rest ih =>
    intro m hm
    rw [List.foldl_cons]
    apply ih
    rw [indexStep_eq]
    cases hv : validKeyString pk row with
    | none => exact hm
    | some k' => exact nodup_keys_mapSet m k' row hm

theorem mapGet_of_mem (m : List (String × Row)) (k : String) (v : Row)
    (hnd : (m.map Prod.fst).Nodup) (hm : (k, v) ∈ m) : mapGet m k = some v := by
  induction m with
  | nil => cases hm
  | cons p rest ih =>
    rw [List.map_cons, List.nodup_cons] at hnd
    rcases List.mem_cons.mp hm with hm | hm
    · rw [mapGet_cons_self p rest k (by rw [← hm])]
      rw [← hm]
    · by_cases hp : p.1 = k
      · exfalso
        apply hnd.1
        rw [hp]
        exact List.mem_map.mpr ⟨(k, v), hm, rfl⟩
      · rw [mapGet_cons_ne p rest k hp]
        exact ih hnd.2 hm

theorem mem_of_mapGet (m : List (String × Row)) (k : String) (v : Row)
    (h : mapGet m k = some v) : (k, v) ∈ m := by
  unfold mapGet at h
  cases hf : m.find? (fun p => p.1 == k) with
  | none => rw [hf] at h; cases h
  | some e =>
    rw [hf] at h
    have he1 : e.1 = k := by
      have := List.find?_some hf
      simpa using this
    have he2 : e.2 = v := by simpa using h
    have := List.mem_of_find?_eq_some hf
    rw [← he1, ← he2]
    simpa using this

theorem mapHas_eq_false_iff (m : List (String × Row)) (k : String) :
    mapHas m k = false ↔ mapGet m k = none := by
  constructor
  · exact mapGet_eq_none m k
  · intro h
    by_contra hc
    rw [Bool.not_eq_false] at hc
    rcases (mapHas_iff m k).mp hc with ⟨p, hp, hpk⟩
    unfold mapGet at h
    cases hf : m.find? (fun q => q.1 == k) with
    | none =>
      rw [List.find?_eq_none] at hf
      exact absurd (show (p.1 == k) = true by simp [hpk]) (hf p hp)
    | some e => rw [hf] at h; cases h

/-! Lemmas about rows and the spread merge -/

theorem getCell_cons_self (p : String × Value) (row : Row) (c : String)
    (h : p.1 = c) : getCell (p :: row) c = some p.2 := by
  simp [getCell, List.find?_cons, h]

theorem getCell_cons_ne (p : String × Value) (row : Row) (c : String)
    (h : p.1 ≠ c) : getCell (p :: row) c = getCell row c := by
  simp [getCell, List.find?_cons, h]

theorem getCell_append (r1 r2 : Row) (c : String) :
    getCell (r1 ++ r2) c = (getCell r1 c).or (getCell r2 c) := by
  cases hf : r1.find? (fun p => p.1 == c) with
  | none => simp [getCell, List.find?_append, hf]
  | some p => simp [getCell, List.find?_append, hf]

theorem getCell_map_override (b l : Row) (c : String) :
    getCell (b.map fun p =>
      match getCell l p.1 with
      | some v => (p.1, v)
      | none => p) c =
      match getCell b c with
      | none => none
      | some w => some (match getCell l c with | some v => v | none => w) := by
  induction b with
  | nil => simp [getCell]
  | cons p rest ih =>
    rw [List.map_cons]
    by_cases hp : p.1 = c
    · have h1 : (match getCell l p.1 with | some v => (p.1, v) | none => p).1 = c := by
        cases getCell l p.1 <;> simp [hp]
      rw [getCell_cons_self _ _ c h1, getCell_cons_self p rest c hp]
      subst hp
      cases getCell l p.1 <;> simp
    · have h1 : (match getCell l p.1 with | some v => (p.1, v) | none => p).1 ≠ c := by
        cases getCell l p.1 <;> simp [hp]
      rw [getCell_cons_ne _ _ c h1, getCell_cons_ne p rest c hp]
      exact ih

theorem getCell_filter_keep (l : Row) (g : String × Value → Bool) (c : String)
    (h : ∀ q : String × Value, q.1 = c → g q = true) :
    getCell (l.filter g) c = getCell l c := by
  induction l with
  | nil => rfl
  | cons q rest ih =>
    by_cases hq : q.1 = c
    · rw [List.filter_cons, if_pos (h q hq)]
      rw [getCell_cons_self q _ c hq, getCell_cons_self q rest c hq]
    · rw [List.filter_cons]
      by_cases hg : g q = true
      · rw [if_pos hg, getCell_cons_ne q _ c hq, getCell_cons_ne q rest c hq]
        exact ih
      · rw [if_neg hg, getCell_cons_ne q rest c hq]
        exact ih

/-- The spread merge reads live's value when live has the column, else base's. -/
theorem getCell_mergeRow (b l : Row) (c : String) :
    getCell (mergeRow b l) c =
      match getCell l c with
      | some v => some v
      | none => getCell b c := by
  unfold mergeRow
  rw [getCell_append, getCell_map_override]
  cases hb : getCell b c with
  | some w =>
    cases hl : getCell l c <;> simp [Option.or]
  | none =>
    rw [Option.none_or]
    have hkeys : ∀ q : String × Value, q.1 = c →
        (!(b.any fun p => p.1 == q.1)) = true := by
      intro q hq
      rw [hq]
      have hfind : b.find? (fun p => p.1 == c) = none := by
        unfold getCell at hb
        cases hf : b.find? (fun p => p.1 == c) with
        | none => rfl
        | some e => rw [hf] at hb; cases hb
      rw [List.find?_eq_none] at hfind
      simp only [Bool.not_eq_true']
      rw [List.any_eq_false]
      intro p hp
      exact hfind p hp
    rw [getCell_filter_keep l _ c hkeys]
    cases getCell l c <;> simp

/-! Characterizing the emitted rows -/

theorem compareDatasets_rows (b l : FileData) (cfg : ComparisonConfig) :
    (compareDatasets b l cfg).rows =
      (buildIndex b.data cfg.primaryKey).map
        (classifyBase (buildIndex l.data cfg.primaryKey)
          (unionColumns b.columns l.columns) cfg.primaryKey cfg.ignoreCase)
      ++ (buildIndex l.data cfg.primaryKey).filterMap
          (newRowOf (buildIndex b.data cfg.primaryKey)) := rfl

theorem compareDatasets_stats (b l : FileData) (cfg : ComparisonConfig) :
    (compareDatasets b l cfg).stats = statsOf (compareDatasets b l cfg).rows := rfl

theorem classifyBase_rowId (lm : List (String × Row)) (cols : List String)
    (pk : String) (ic : Bool) (e : String × Row) :
    (classifyBase lm cols pk ic e).rowId = e.1 := by
  unfold classifyBase
  cases mapGet lm e.1 with
  | none => rfl
  | some lr =>
    dsimp only
    split <;> rfl

theorem newRowOf_eq_some (bm : List (String × Row)) (e : String × Row)
    (r : ProcessedRow) :
    newRowOf bm e = some r ↔
      mapHas bm e.1 = false
      ∧ r = { data := e.2, changeType := .NEW, changedColumns := [], rowId := e.1 } := by
  unfold newRowOf
  by_cases h : mapHas bm e.1 = true
  · simp [h]
  · have h' : mapHas bm e.1 = false := by
      cases hcase : mapHas bm e.1
      · rfl
      · exact absurd hcase h
    rw [if_neg h]
    constructor
    · intro hr
      injection hr with hr
      exact ⟨h', hr.symm⟩
    · rintro ⟨_, hr⟩
      rw [hr]

theorem diffColumns_spec (cols : List String) (pk : String) (ic : Bool)
    (br lr : Row) (c : String) :
    c ∈ diffColumns cols pk ic br lr ↔
      c ∈ cols ∧ c ≠ pk
      ∧ normalizeValue (getCell br c) ic ≠ normalizeValue (getCell lr c) ic := by
  unfold diffColumns
  rw [List.mem_filter]
  simp

theorem diffColumns_eq_nil_iff (cols : List String) (pk : String) (ic : Bool)
    (br lr : Row) :
    diffColumns cols pk ic br lr = [] ↔
      ∀ c ∈ cols, c ≠ pk →
        normalizeValue (getCell br c) ic = normalizeValue (getCell lr c) ic := by
  unfold diffColumns
  rw [List.filter_eq_nil_iff]
  constructor
  · intro h c hc hpk
    by_contra hne
    exact h c hc (by simp [hpk, hne])
  · intro h c hc hcon
    simp only [Bool.and_eq_true, Bool.not_eq_true', beq_eq_false_iff_ne, ne_eq] at hcon
    exact hcon.2 (h c hc hcon.1)

theorem mem_rows_iff (b l : FileData) (cfg : ComparisonConfig) (r : ProcessedRow) :
    r ∈ (compareDatasets b l cfg).rows ↔
      (∃ e ∈ buildIndex b.data cfg.primaryKey,
        r = classifyBase (buildIndex l.data cfg.primaryKey)
          (unionColumns b.columns l.columns) cfg.primaryKey cfg.ignoreCase e)
      ∨ (∃ e ∈ buildIndex l.data cfg.primaryKey,
          mapHas (buildIndex b.data cfg.primaryKey) e.1 = false
          ∧ r = { data := e.2, changeType := .NEW, changedColumns := [],
                  rowId := e.1 }) := by
  rw [compareDatasets_rows, List.mem_append, List.mem_map, List.mem_filterMap]
  constructor
  · rintro (⟨e, he, hr⟩ | ⟨e, he, hr⟩)
    · exact Or.inl ⟨e, he, hr.symm⟩
    · rcases (newRowOf_eq_some _ e r).mp hr with ⟨h1, h2⟩
      exact Or.inr ⟨e, he, h1, h2⟩
  · rintro (⟨e, he, hr⟩ | ⟨e, he, h1, hr⟩)
    · exact Or.inl ⟨e, he, hr.symm⟩
    · exact Or.inr ⟨e, he, (newRowOf_eq_some _ e r).mpr ⟨h1, hr⟩⟩

theorem classifyBase_eq (lm : List (String × Row)) (cols : List String)
    (pk : String) (ic : Bool) (e : String × Row) :
    (mapGet lm e.1 = none
      ∧ classifyBase lm cols pk ic e =
          { data := e.2, changeType := .REMOVED, changedColumns := [], rowId := e.1 })
    ∨ (∃ lr, mapGet lm e.1 = some lr ∧ diffColumns cols pk ic e.2 lr = []
        ∧ classifyBase lm cols pk ic e =
            { data := e.2, changeType := .UNCHANGED, changedColumns := [], rowId := e.1 })
    ∨ (∃ lr, mapGet lm e.1 = some lr ∧ diffColumns cols pk ic e.2 lr ≠ []
        ∧ classifyBase lm cols pk ic e =
            { data := mergeRow e.2 lr, changeType := .UPDATED,
              changedColumns := diffColumns cols pk ic e.2 lr, rowId := e.1 }) := by
  rcases hget : mapGet lm e.1 with _ | lr
  · exact Or.inl ⟨rfl, by simp [classifyBase, hget]⟩
  · by_cases hemp : (diffColumns cols pk ic e.2 lr).isEmpty = true
    · exact Or.inr (Or.inl ⟨lr, rfl, List.isEmpty_iff.mp hemp,
        by simp [classifyBase, hget, hemp]⟩)
    · have hemp' : (diffColumns cols pk ic e.2 lr).isEmpty = false := by
        cases hcase : (diffColumns cols pk ic e.2 lr).isEmpty
        · rfl
        · exact absurd hcase hemp
      refine Or.inr (Or.inr ⟨lr, rfl, ?_, by simp [classifyBase, hget, hemp']⟩)
      intro hnil
      rw [hnil] at hemp'
      cases hemp'

/-- Each row's length contribution goes to exactly one of the four counters. -/
theorem length_eq_counts (rows : List ProcessedRow) :
    rows.length = (rows.countP fun r => r.changeType == ChangeType.NEW)
      + (rows.countP fun r => r.changeType == ChangeType.UPDATED)
      + (rows.countP fun r => r.changeType == ChangeType.REMOVED)
      + (rows.countP fun r => r.changeType == ChangeType.UNCHANGED) := by
  induction rows with
  | nil => rfl
  | cons r rest ih =>
    simp only [List.length_cons, List.countP_cons]
    cases hct : r.changeType <;> simp [hct, ih] <;> omega

/-- Claim C3: the returned statistics satisfy
`total = new + updated + removed + unchanged`, `total` equals the number of
emitted rows, and all five counters are non-negative (they are naturals). -/
theorem claim_C3 (b l : FileData) (cfg : ComparisonConfig) :
    (compareDatasets b l cfg).stats.total =
        (compareDatasets b l cfg).stats.new + (compareDatasets b l cfg).stats.updated
        + (compareDatasets b l cfg).stats.removed
        + (compareDatasets b l cfg).stats.unchanged
    ∧ (compareDatasets b l cfg).stats.total = (compareDatasets b l cfg).rows.length
    ∧ 0 ≤ (compareDatasets b l cfg).stats.new
    ∧ 0 ≤ (compareDatasets b l cfg).stats.updated
    ∧ 0 ≤ (compareDatasets b l cfg).stats.removed
    ∧ 0 ≤ (compareDatasets b l cfg).stats.unchanged := by
  refine ⟨?_, rfl, Nat.zero_le _, Nat.zero_le _, Nat.zero_le _, Nat.zero_le _⟩
  exact length_eq_counts _

/-- Claim C7: `normalizeValue` maps null/absent to `""`, and any other value
to its string form trimmed (lower-cased exactly when `ignoreCase`); hence the
number 42, the string "42" and the string " 42 " all normalize alike. -/
theorem claim_C7 (ic : Bool) :
    normalizeValue none ic = ""
    ∧ normalizeValue (some Value.vNull) ic = ""
    ∧ (∀ v : Value, v ≠ Value.vNull →
        normalizeValue (some v) ic =
          (if ic then strToLower (strTrim (valueToString v))
           else strTrim (valueToString v)))
    ∧ normalizeValue (some (Value.vNum 42)) ic
        = normalizeValue (some (Value.vStr "42")) ic
    ∧ normalizeValue (some (Value.vStr " 42 ")) ic
        = normalizeValue (some (Value.vStr "42")) ic := by
  refine ⟨rfl, rfl, ?_, ?_, ?_⟩
  · intro v hv
    cases v with
    | vStr s => rfl
    | vNum n => rfl
    | vBool bb => rfl
    | vNull => exact absurd rfl hv
  · cases ic <;> decide
  · cases ic <;> decide

/-- Witness for C7 at a concrete non-null value. -/
theorem claim_C7_witness :
    normalizeValue (some (Value.vStr " AbC ")) true =
      (if true then strToLower (strTrim (valueToString (Value.vStr " AbC ")))
       else strTrim (valueToString (Value.vStr " AbC "))) :=
  (claim_C7 true).2.2.1 (Value.vStr " AbC ") (by decide)

/-- Claim C4: `_meta_changed_columns` is non-empty iff the row is UPDATED,
and never contains the primary-key column. -/
theorem claim_C4 (b l : FileData) (cfg : ComparisonConfig) (r : ProcessedRow)
    (hr : r ∈ (compareDatasets b l cfg).rows) :
    (r.changedColumns ≠ [] ↔ r.changeType = ChangeType.UPDATED)
    ∧ cfg.primaryKey ∉ r.changedColumns := by
  rcases (mem_rows_iff b l cfg r).mp hr with ⟨e, _, hreq⟩ | ⟨e, _, _, hreq⟩
  · rcases classifyBase_eq (buildIndex l.data cfg.primaryKey)
        (unionColumns b.columns l.columns) cfg.primaryKey cfg.ignoreCase e with
      ⟨_, heq⟩ | ⟨lr, _, _, heq⟩ | ⟨lr, _, hne, heq⟩
    · rw [hreq, heq]
      exact ⟨by simp, by simp⟩
    · rw [hreq, heq]
      exact ⟨by simp, by simp⟩
    · rw [hreq, heq]
      refine ⟨⟨fun _ => rfl, fun _ => hne⟩, ?_⟩
      intro hmem
      rcases (diffColumns_spec _ _ _ _ _ _).mp hmem with ⟨_, hpk, _⟩
      exact hpk rfl
  · rw [hreq]
    exact ⟨by simp, by simp⟩

/-- Sample datasets for witnesses: one shared key "1" whose column "v"
changed from "x" to "y". -/
def sampleBase : FileData :=
  { name := "base.xlsx"
    data := [[("id", Value.vStr "1"), ("v", Value.vStr "x")]]
    columns := ["id", "v"] }

def sampleLive : FileData :=
  { name := "live.xlsx"
    data := [[("id", Value.vStr "1"), ("v", Value.vStr "y")]]
    columns := ["id", "v"] }

def sampleCfg : ComparisonConfig := { primaryKey := "id", ignoreCase := false }

def sampleUpdatedRow : ProcessedRow :=
  { data := [("id", Value.vStr "1"), ("v", Value.vStr "y")]
    changeType := .UPDATED
    changedColumns := ["v"]
    rowId := "1" }

/-- Witness for C4 on the sample UPDATED row. -/
theorem claim_C4_witness :
    (sampleUpdatedRow.changedColumns ≠ [] ↔
      sampleUpdatedRow.changeType = ChangeType.UPDATED)
    ∧ sampleCfg.primaryKey ∉ sampleUpdatedRow.changedColumns :=
  claim_C4 sampleBase sampleLive sampleCfg sampleUpdatedRow (by decide)

/-- Claim C1: with both indexes built, an emitted row matched on both sides is
UPDATED iff some non-primary-key union column differs after normalization and
UNCHANGED iff none does; a row only in the base index is REMOVED; a row only
in the live index is NEW; and no emitted row is in neither index. -/
theorem claim_C1 (b l : FileData) (cfg : ComparisonConfig) (r : ProcessedRow)
    (hr : r ∈ (compareDatasets b l cfg).rows) :
    (∀ br, mapGet (buildIndex b.data cfg.primaryKey) r.rowId = some br →
      ∀ lr, mapGet (buildIndex l.data cfg.primaryKey) r.rowId = some lr →
        (r.changeType = ChangeType.UPDATED ↔
          ∃ c ∈ unionColumns b.columns l.columns, c ≠ cfg.primaryKey ∧
            normalizeValue (getCell br c) cfg.ignoreCase
              ≠ normalizeValue (getCell lr c) cfg.ignoreCase)
        ∧ (r.changeType = ChangeType.UNCHANGED ↔
          ∀ c ∈ unionColumns b.columns l.columns, c ≠ cfg.primaryKey →
            normalizeValue (getCell br c) cfg.ignoreCase
              = normalizeValue (getCell lr c) cfg.ignoreCase))
    ∧ (∀ br, mapGet (buildIndex b.data cfg.primaryKey) r.rowId = some br →
        mapGet (buildIndex l.data cfg.primaryKey) r.rowId = none →
        r.changeType = ChangeType.REMOVED)
    ∧ (mapGet (buildIndex b.data cfg.primaryKey) r.rowId = none →
        ∀ lr, mapGet (buildIndex l.data cfg.primaryKey) r.rowId = some lr →
        r.changeType = ChangeType.NEW)
    ∧ ¬(mapGet (buildIndex b.data cfg.primaryKey) r.rowId = none
        ∧ mapGet (buildIndex l.data cfg.primaryKey) r.rowId = none) := by
  have hndb := buildIndex_keys_nodup b.data cfg.primaryKey
  have hndl := buildIndex_keys_nodup l.data cfg.primaryKey
  rcases (mem_rows_iff b l cfg r).mp hr with ⟨e, he, hreq⟩ | ⟨e, he, hhas, hreq⟩
  · have hrid : r.rowId = e.1 := by
      rw [hreq]
      exact classifyBase_rowId _ _ _ _ e
    have hbget : mapGet (buildIndex b.data cfg.primaryKey) r.rowId = some e.2 := by
      rw [hrid]
      exact mapGet_of_mem _ _ _ hndb he
    refine ⟨?_, ?_, ?_, ?_⟩
    · intro br hbr lr hlr
      rw [hbget] at hbr
      injection hbr with hbr
      subst hbr
      rcases classifyBase_eq (buildIndex l.data cfg.primaryKey)
          (unionColumns b.columns l.columns) cfg.primaryKey cfg.ignoreCase e with
        ⟨hget, _⟩ | ⟨lr', hget, hnil, heq⟩ | ⟨lr', hget, hne, heq⟩
      · rw [hrid, hget] at hlr
        cases hlr
      · rw [hrid, hget] at hlr
        injection hlr with hlr
        subst hlr
        rw [hreq, heq]
        constructor
        · constructor
          · intro hct
            cases hct
          · rintro ⟨c, hc, hpk, hdiff⟩
            exact absurd
              ((diffColumns_eq_nil_iff _ _ _ _ _).mp hnil c hc hpk) hdiff
        · exact ⟨fun _ => (diffColumns_eq_nil_iff _ _ _ _ _).mp hnil,
            fun _ => rfl⟩
      · rw [hrid, hget] at hlr
        injection hlr with hlr
        subst hlr
        rw [hreq, heq]
        constructor
        · refine ⟨fun _ => ?_, fun _ => rfl⟩
          rcases List.exists_mem_of_ne_nil _ hne with ⟨c, hc⟩
          rcases (diffColumns_spec _ _ _ _ _ _).mp hc with ⟨h1, h2, h3⟩
          exact ⟨c, h1, h2, h3⟩
        · constructor
          · intro hct
            cases hct
          · intro hall
            rcases List.exists_mem_of_ne_nil _ hne with ⟨c, hc⟩
            rcases (diffColumns_spec _ _ _ _ _ _).mp hc with ⟨h1, h2, h3⟩
            exact absurd (hall c h1 h2) h3
    · intro br _ hlnone
      rcases classifyBase_eq (buildIndex l.data cfg.primaryKey)
          (unionColumns b.columns l.columns) cfg.primaryKey cfg.ignoreCase e with
        ⟨hget, heq⟩ | ⟨lr', hget, _, _⟩ | ⟨lr', hget, _, _⟩
      · rw [hreq, heq]
      · rw [hrid, hget] at hlnone
        cases hlnone
      · rw [hrid, hget] at hlnone
        cases hlnone
    · intro hbnone
      rw [hbget] at hbnone
      cases hbnone
    · rintro ⟨hbnone, _⟩
      rw [hbget] at hbnone
      cases hbnone
  · have hrid : r.rowId = e.1 := by rw [hreq]
    have hbnone : mapGet (buildIndex b.data cfg.primaryKey) r.rowId = none := by
      rw [hrid]
      exact mapGet_eq_none _ _ hhas
    have hlget : mapGet (buildIndex l.data cfg.primaryKey) r.rowId = some e.2 := by
      rw [hrid]
      exact mapGet_of_mem _ _ _ hndl he
    refine ⟨?_, ?_, ?_, ?_⟩
    · intro br hbr
      rw [hbnone] at hbr
      cases hbr
    · intro br hbr
      rw [hbnone] at hbr
      cases hbr
    · intro _ lr _
      rw [hreq]
    · rintro ⟨_, hlnone⟩
      rw [hlget] at hlnone
      cases hlnone

/-- Witness for C1: on the sample pair, the matched row is UPDATED because
column "v" differs. -/
theorem claim_C1_witness :
    sampleUpdatedRow.changeType = ChangeType.UPDATED ↔
      ∃ c ∈ unionColumns sampleBase.columns sampleLive.columns,
        c ≠ sampleCfg.primaryKey ∧
        normalizeValue (getCell [("id", Value.vStr "1"), ("v", Value.vStr "x")] c)
            sampleCfg.ignoreCase
          ≠ normalizeValue (getCell [("id", Value.vStr "1"), ("v", Value.vStr "y")] c)
            sampleCfg.ignoreCase :=
  ((claim_C1 sampleBase sampleLive sampleCfg sampleUpdatedRow (by decide)).1
    [("id", Value.vStr "1"), ("v", Value.vStr "x")] (by decide)
    [("id", Value.vStr "1"), ("v", Value.vStr "y")] (by decide)).1

/-- Claim C2: an UPDATED row's emitted value at every union column is live's
value when live has the column, else base's value. -/
theorem claim_C2 (b l : FileData) (cfg : ComparisonConfig) (r : ProcessedRow)
    (hr : r ∈ (compareDatasets b l cfg).rows)
    (hup : r.changeType = ChangeType.UPDATED) :
    ∃ br lr, mapGet (buildIndex b.data cfg.primaryKey) r.rowId = some br
      ∧ mapGet (buildIndex l.data cfg.primaryKey) r.rowId = some lr
      ∧ ∀ c ∈ unionColumns b.columns l.columns,
          getCell r.data c =
            match getCell lr c with
            | some v => some v
            | none => getCell br c := by
  have hndb := buildIndex_keys_nodup b.data cfg.primaryKey
  have hndl := buildIndex_keys_nodup l.data cfg.primaryKey
  rcases (mem_rows_iff b l cfg r).mp hr with ⟨e, he, hreq⟩ | ⟨e, _, _, hreq⟩
  · have hrid : r.rowId = e.1 := by
      rw [hreq]
      exact classifyBase_rowId _ _ _ _ e
    rcases classifyBase_eq (buildIndex l.data cfg.primaryKey)
        (unionColumns b.columns l.columns) cfg.primaryKey cfg.ignoreCase e with
      ⟨_, heq⟩ | ⟨lr', _, _, heq⟩ | ⟨lr', hget, _, heq⟩
    · rw [hreq, heq] at hup
      cases hup
    · rw [hreq, heq] at hup
      cases hup
    · refine ⟨e.2, lr', ?_, ?_, ?_⟩
      · rw [hrid]
        exact mapGet_of_mem _ _ _ hndb he
      · rw [hrid]
        exact hget
      · intro c _
        rw [hreq, heq]
        exact getCell_mergeRow e.2 lr' c
  · rw [hreq] at hup
    cases hup

/-- Witness for C2 on the sample UPDATED row. -/
theorem claim_C2_witness :
    ∃ br lr,
      mapGet (buildIndex sampleBase.data sampleCfg.primaryKey)
          sampleUpdatedRow.rowId = some br
      ∧ mapGet (buildIndex sampleLive.data sampleCfg.primaryKey)
          sampleUpdatedRow.rowId = some lr
      ∧ ∀ c ∈ unionColumns sampleBase.columns sampleLive.columns,
          getCell sampleUpdatedRow.data c =
            match getCell lr c with
            | some v => some v
            | none => getCell br c :=
  claim_C2 sampleBase sampleLive sampleCfg sampleUpdatedRow (by decide) (by decide)

theorem bool_eq_false (x : Bool) (h : ¬ x = true) : x = false := by
  cases x
  · rfl
  · exact absurd rfl h

theorem validKeyString_eq_some_iff (pk : String) (row : Row) (k : String) :
    validKeyString pk row = some k ↔
      ∃ v, getCell row pk = some v ∧ isValidKey v = true ∧ valueToString v = k := by
  unfold validKeyString
  cases hv : getCell row pk with
  | none => simp
  | some v =>
    by_cases hval : isValidKey v = true
    · simp [hval]
    · simp [hval, bool_eq_false _ hval]

/-- Every emitted row carries, under the primary-key column, a valid key value
whose stringification is the row's `_meta_row_id`. -/
theorem rows_key_valid (b l : FileData) (cfg : ComparisonConfig) :
    ∀ r ∈ (compareDatasets b l cfg).rows,
      ∃ v, getCell r.data cfg.primaryKey = some v ∧ isValidKey v = true
        ∧ valueToString v = r.rowId := by
  intro r hr
  rcases (mem_rows_iff b l cfg r).mp hr with ⟨e, he, hreq⟩ | ⟨e, he, _, hreq⟩
  · rcases (validKeyString_eq_some_iff cfg.primaryKey e.2 e.1).mp
        (buildIndex_entry b.data cfg.primaryKey e he) with ⟨v, hv, hvalid, hts⟩
    rcases classifyBase_eq (buildIndex l.data cfg.primaryKey)
        (unionColumns b.columns l.columns) cfg.primaryKey cfg.ignoreCase e with
      ⟨_, heq⟩ | ⟨lr, _, _, heq⟩ | ⟨lr, hget, _, heq⟩
    · rw [hreq, heq]
      exact ⟨v, hv, hvalid, hts⟩
    · rw [hreq, heq]
      exact ⟨v, hv, hvalid, hts⟩
    · rcases (validKeyString_eq_some_iff cfg.primaryKey lr e.1).mp
          (buildIndex_entry l.data cfg.primaryKey (e.1, lr)
            (mem_of_mapGet _ _ _ hget)) with ⟨w, hw, hwvalid, hwts⟩
      rw [hreq, heq]
      refine ⟨w, ?_, hwvalid, hwts⟩
      rw [getCell_mergeRow, hw]
  · rcases (validKeyString_eq_some_iff cfg.primaryKey e.2 e.1).mp
        (buildIndex_entry l.data cfg.primaryKey e he) with ⟨v, hv, hvalid, hts⟩
    rw [hreq]
    exact ⟨v, hv, hvalid, hts⟩

/-- Claim C10: `_meta_row_id` equals the stringification of the emitted row's
own primary-key value. -/
theorem claim_C10 (b l : FileData) (cfg : ComparisonConfig) (r : ProcessedRow)
    (hr : r ∈ (compareDatasets b l cfg).rows) :
    ∃ v, getCell r.data cfg.primaryKey = some v ∧ valueToString v = r.rowId := by
  rcases rows_key_valid b l cfg r hr with ⟨v, hv, _, hts⟩
  exact ⟨v, hv, hts⟩

/-- Witness for C10 on the sample UPDATED row. -/
theorem claim_C10_witness :
    ∃ v, getCell sampleUpdatedRow.data sampleCfg.primaryKey = some v
      ∧ valueToString v = sampleUpdatedRow.rowId :=
  claim_C10 sampleBase sampleLive sampleCfg sampleUpdatedRow (by decide)

/-- Claim C6: a row whose primary-key cell is absent, null, or the empty
string is never indexed on either side, hence never matched, and its data
never appears as any emitted row's data. -/
theorem claim_C6 (b l : FileData) (cfg : ComparisonConfig) (row : Row)
    (h : getCell row cfg.primaryKey = none
      ∨ getCell row cfg.primaryKey = some Value.vNull
      ∨ getCell row cfg.primaryKey = some (Value.vStr "")) :
    (∀ k, (k, row) ∉ buildIndex b.data cfg.primaryKey)
    ∧ (∀ k, (k, row) ∉ buildIndex l.data cfg.primaryKey)
    ∧ ∀ r ∈ (compareDatasets b l cfg).rows, r.data ≠ row := by
  have hnone : validKeyString cfg.primaryKey row = none := by
    unfold validKeyString
    rcases h with h | h | h <;> rw [h] <;> simp [isValidKey]
  refine ⟨?_, ?_, ?_⟩
  · intro k hmem
    have := buildIndex_entry b.data cfg.primaryKey (k, row) hmem
    rw [hnone] at this
    cases this
  · intro k hmem
    have := buildIndex_entry l.data cfg.primaryKey (k, row) hmem
    rw [hnone] at this
    cases this
  · intro r hr heq
    rcases rows_key_valid b l cfg r hr with ⟨v, hv, hvalid, _⟩
    rw [heq] at hv
    have : validKeyString cfg.primaryKey row = some (valueToString v) :=
      (validKeyString_eq_some_iff _ _ _).mpr ⟨v, hv, hvalid, rfl⟩
    rw [hnone] at this
    cases this

/-- Witness for C6: a row whose "id" cell is the empty string. -/
theorem claim_C6_witness :
    (∀ k, (k, ([("id", Value.vStr ""), ("v", Value.vStr "z")] : Row))
        ∉ buildIndex sampleBase.data sampleCfg.primaryKey)
    ∧ (∀ k, (k, ([("id", Value.vStr ""), ("v", Value.vStr "z")] : Row))
        ∉ buildIndex sampleLive.data sampleCfg.primaryKey)
    ∧ ∀ r ∈ (compareDatasets sampleBase sampleLive sampleCfg).rows,
        r.data ≠ ([("id", Value.vStr ""), ("v", Value.vStr "z")] : Row) :=
  claim_C6 sampleBase sampleLive sampleCfg
    [("id", Value.vStr ""), ("v", Value.vStr "z")] (by decide)

/-! Order of the emitted rows -/

theorem any_fst_eq_mapHas (m : List (String × Row)) (k : String) :
    ((m.map Prod.fst).any fun s => s == k) = mapHas m k := by
  unfold mapHas
  induction m with
  | nil => rfl
  | cons p rest ih => simp only [List.map_cons, List.any_cons, ih]

theorem map_fst_mapSet (m : List (String × Row)) (k : String) (v : Row) :
    (mapSet m k v).map Prod.fst = addUnique (m.map Prod.fst) k := by
  unfold mapSet addUnique
  rw [any_fst_eq_mapHas]
  by_cases h : mapHas m k = true
  · rw [if_pos h, if_pos h, map_fst_replace]
  · rw [if_neg h, if_neg h, List.map_append]
    rfl

theorem map_fst_foldl_indexStep (pk : String) (data : List Row) :
    ∀ m, ((data.foldl (indexStep pk) m).map Prod.fst) =
      (data.filterMap (validKeyString pk)).foldl addUnique (m.map Prod.fst) := by
  induction data with
  | nil => intro m; rfl
  | cons row rest ih =>
    intro m
    rw [List.foldl_cons, ih, indexStep_eq, List.filterMap_cons]
    cases hv : validKeyString pk row with
    | none => rfl
    | some k =>
      simp only
      rw [List.foldl_cons, map_fst_mapSet]

/-- The index's key sequence is the first-seen-order deduplication of the
dataset's valid key strings. -/
theorem buildIndex_keys (data : List Row) (pk : String) :
    (buildIndex data pk).map Prod.fst = dedupKeep (data.filterMap (validKeyString pk)) := by
  unfold buildIndex dedupKeep
  rw [map_fst_foldl_indexStep]
  rfl

theorem map_rowId_filterMap_newRowOf (bm lm : List (String × Row)) :
    ((lm.filterMap (newRowOf bm)).map fun r => r.rowId) =
      (lm.map Prod.fst).filter fun k => !(mapHas bm k) := by
  induction lm with
  | nil => rfl
  | cons e rest ih =>
    rw [List.filterMap_cons, List.map_cons, List.filter_cons]
    by_cases h : mapHas bm e.1 = true
    · have hn : newRowOf bm e = none := by
        unfold newRowOf
        rw [if_pos h]
      rw [hn, if_neg (by simp [h])]
      exact ih
    · have hn : newRowOf bm e =
          some { data := e.2, changeType := .NEW, changedColumns := [], rowId := e.1 } := by
        unfold newRowOf
        rw [if_neg h]
      rw [hn, if_pos (by simp [bool_eq_false _ h]), List.map_cons, ih]

theorem rows_map_rowId (b l : FileData) (cfg : ComparisonConfig) :
    ((compareDatasets b l cfg).rows.map fun r => r.rowId) =
      (buildIndex b.data cfg.primaryKey).map Prod.fst
      ++ ((buildIndex l.data cfg.primaryKey).map Prod.fst).filter
          (fun k => !(mapHas (buildIndex b.data cfg.primaryKey) k)) := by
  rw [compareDatasets_rows, List.map_append]
  congr 1
  · rw [List.map_map]
    apply List.map_congr_left
    intro e _
    exact classifyBase_rowId _ _ _ _ e
  · exact map_rowId_filterMap_newRowOf _ _

/-- Claim C8: the result is the base-matched block (REMOVED/UPDATED/UNCHANGED,
one per base-index key, in base first-occurrence order) followed by the NEW
block (live-index keys missing from the base index, in live order). -/
theorem claim_C8 (b l : FileData) (cfg : ComparisonConfig) :
    ∃ A B, (compareDatasets b l cfg).rows = A ++ B
      ∧ (∀ r ∈ A, r.changeType ≠ ChangeType.NEW)
      ∧ (∀ r ∈ B, r.changeType = ChangeType.NEW)
      ∧ (A.map fun r => r.rowId) =
          dedupKeep (b.data.filterMap (validKeyString cfg.primaryKey))
      ∧ (B.map fun r => r.rowId) =
          (dedupKeep (l.data.filterMap (validKeyString cfg.primaryKey))).filter
            (fun k => !(mapHas (buildIndex b.data cfg.primaryKey) k)) := by
  refine ⟨(buildIndex b.data cfg.primaryKey).map
      (classifyBase (buildIndex l.data cfg.primaryKey)
        (unionColumns b.columns l.columns) cfg.primaryKey cfg.ignoreCase),
    (buildIndex l.data cfg.primaryKey).filterMap
      (newRowOf (buildIndex b.data cfg.primaryKey)),
    compareDatasets_rows b l cfg, ?_, ?_, ?_, ?_⟩
  · intro r hr
    rcases List.mem_map.mp hr with ⟨e, _, heq⟩
    rcases classifyBase_eq (buildIndex l.data cfg.primaryKey)
        (unionColumns b.columns l.columns) cfg.primaryKey cfg.ignoreCase e with
      ⟨_, h⟩ | ⟨lr, _, _, h⟩ | ⟨lr, _, _, h⟩ <;>
      rw [heq] at h <;> rw [h] <;> intro hc <;> cases hc
  · intro r hr
    rcases List.mem_filterMap.mp hr with ⟨e, _, hsome⟩
    rcases (newRowOf_eq_some _ e r).mp hsome with ⟨_, hreq⟩
    rw [hreq]
  · rw [List.map_map]
    rw [show ((fun r : ProcessedRow => r.rowId) ∘
        (classifyBase (buildIndex l.data cfg.primaryKey)
          (unionColumns b.columns l.columns) cfg.primaryKey cfg.ignoreCase))
        = Prod.fst from funext fun e => classifyBase_rowId _ _ _ _ e]
    exact buildIndex_keys b.data cfg.primaryKey
  · rw [map_rowId_filterMap_newRowOf, buildIndex_keys]

theorem lastMatch_isSome_iff (data : List Row) (pk k : String) :
    (∃ r, lastMatch data pk k = some r) ↔
      ∃ row ∈ data, validKeyString pk row = some k := by
  unfold lastMatch
  constructor
  · rintro ⟨r, hr⟩
    refine ⟨r, List.mem_reverse.mp (List.mem_of_find?_eq_some hr), ?_⟩
    have hp := List.find?_some hr
    simpa using hp
  · rintro ⟨row, hm, hv⟩
    have hex : ∃ x ∈ data.reverse, (validKeyString pk x == some k) = true :=
      ⟨row, List.mem_reverse.mpr hm, by simp [hv]⟩
    rcases Option.isSome_iff_exists.mp (List.find?_isSome.mpr hex) with ⟨r, hr⟩
    exact ⟨r, hr⟩

/-- The emitted row ids are distinct. -/
theorem rows_rowId_nodup (b l : FileData) (cfg : ComparisonConfig) :
    ((compareDatasets b l cfg).rows.map fun r => r.rowId).Nodup := by
  rw [rows_map_rowId]
  apply List.Nodup.append
  · exact buildIndex_keys_nodup b.data cfg.primaryKey
  · exact (buildIndex_keys_nodup l.data cfg.primaryKey).filter _
  · intro a ha hb
    rw [List.mem_filter] at hb
    have hfalse : mapHas (buildIndex b.data cfg.primaryKey) a = false := by
      have := hb.2
      simpa using this
    rcases List.mem_map.mp ha with ⟨p, hp, hpa⟩
    exact absurd ((mapHas_iff _ _).mpr ⟨p, hp, hpa⟩) (by simp [hfalse])

/-- Claim C5: the index holds the last dataset row per key string (earlier
duplicates are shadowed), and every key occurring among the valid-keyed rows
of either dataset yields exactly one result row. -/
theorem claim_C5 (b l : FileData) (cfg : ComparisonConfig) (k : String) :
    mapGet (buildIndex b.data cfg.primaryKey) k = lastMatch b.data cfg.primaryKey k
    ∧ mapGet (buildIndex l.data cfg.primaryKey) k = lastMatch l.data cfg.primaryKey k
    ∧ (((∃ row ∈ b.data, validKeyString cfg.primaryKey row = some k)
        ∨ (∃ row ∈ l.data, validKeyString cfg.primaryKey row = some k)) →
      ((compareDatasets b l cfg).rows.filter fun r => r.rowId == k).length = 1) := by
  refine ⟨mapGet_buildIndex b.data cfg.primaryKey k,
    mapGet_buildIndex l.data cfg.primaryKey k, ?_⟩
  intro hocc
  have hmem : k ∈ ((compareDatasets b l cfg).rows.map fun r => r.rowId) := by
    rw [rows_map_rowId]
    rw [List.mem_append]
    by_cases hb : mapHas (buildIndex b.data cfg.primaryKey) k = true
    · left
      rcases (mapHas_iff _ _).mp hb with ⟨p, hp, hpk⟩
      exact List.mem_map.mpr ⟨p, hp, hpk⟩
    · right
      rcases hocc with hocc | hocc
      · exfalso
        rcases (lastMatch_isSome_iff b.data cfg.primaryKey k).mpr hocc with ⟨r, hr⟩
        have := mapGet_buildIndex b.data cfg.primaryKey k
        rw [hr] at this
        exact hb ((mapHas_iff _ _).mpr
          ⟨(k, r), mem_of_mapGet _ _ _ this, rfl⟩)
      · rcases (lastMatch_isSome_iff l.data cfg.primaryKey k).mpr hocc with ⟨r, hr⟩
        have hget := mapGet_buildIndex l.data cfg.primaryKey k
        rw [hr] at hget
        rw [List.mem_filter]
        refine ⟨List.mem_map.mpr ⟨(k, r), mem_of_mapGet _ _ _ hget, rfl⟩, ?_⟩
        simp [bool_eq_false _ hb]
  rw [← List.countP_eq_length_filter]
  have h1 := List.countP_map (fun s => s == k)
    (fun r : ProcessedRow => r.rowId) (compareDatasets b l cfg).rows
  rw [show (fun r : ProcessedRow => r.rowId == k)
      = ((fun s => s == k) ∘ fun r : ProcessedRow => r.rowId) from rfl, ← h1]
  exact List.count_eq_one_of_mem (rows_rowId_nodup b l cfg) hmem

/-- A base dataset with a duplicated key "1"; last write wins. -/
def dupBase : FileData :=
  { name := "dup.xlsx"
    data := [[("id", Value.vStr "1"), ("v", Value.vStr "a")],
             [("id", Value.vStr "1"), ("v", Value.vStr "b")]]
    columns := ["id", "v"] }

/-- Witness for C5: with a duplicated base key, the key still yields exactly
one result row. -/
theorem claim_C5_witness :
    ((compareDatasets dupBase sampleLive sampleCfg).rows.filter
      fun r => r.rowId == "1").length = 1 :=
  (claim_C5 dupBase sampleLive sampleCfg "1").2.2 (by decide)

/-! Lemmas: ignoreCase does not interfere with key matching -/

theorem filter_new_map_classify (lm : List (String × Row)) (cols : List String)
    (pk : String) (ic : Bool) (bm : List (String × Row)) :
    ((bm.map (classifyBase lm cols pk ic)).filter
      fun r => r.changeType == ChangeType.NEW) = [] := by
  rw [List.filter_eq_nil_iff]
  intro r hr
  rcases List.mem_map.mp hr with ⟨e, _, heq⟩
  have hne : r.changeType ≠ ChangeType.NEW := by
    rcases classifyBase_eq lm cols pk ic e with
      ⟨_, h⟩ | ⟨lr, _, _, h⟩ | ⟨lr, _, _, h⟩ <;>
      rw [heq] at h <;> rw [h] <;> intro hc <;> cases hc
  simp [hne]

theorem filter_removed_filterMap_new (bm lm : List (String × Row)) :
    ((lm.filterMap (newRowOf bm)).filter
      fun r => r.changeType == ChangeType.REMOVED) = [] := by
  rw [List.filter_eq_nil_iff]
  intro r hr
  rcases List.mem_filterMap.mp hr with ⟨e, _, hsome⟩
  rcases (newRowOf_eq_some bm e r).mp hsome with ⟨_, hreq⟩
  rw [hreq]
  simp

theorem filter_removed_map_classify (lm : List (String × Row)) (cols : List String)
    (pk : String) (ic1 ic2 : Bool) (bm : List (String × Row)) :
    ((bm.map (classifyBase lm cols pk ic1)).filter
        fun r => r.changeType == ChangeType.REMOVED)
      = ((bm.map (classifyBase lm cols pk ic2)).filter
          fun r => r.changeType == ChangeType.REMOVED) := by
  induction bm with
  | nil => rfl
  | cons e rest ih =>
    rw [List.map_cons, List.map_cons, List.filter_cons, List.filter_cons]
    rcases hget : mapGet lm e.1 with _ | lr
    · have h1 : classifyBase lm cols pk ic1 e =
          { data := e.2, changeType := .REMOVED, changedColumns := [], rowId := e.1 } := by
        simp [classifyBase, hget]
      have h2 : classifyBase lm cols pk ic2 e =
          { data := e.2, changeType := .REMOVED, changedColumns := [], rowId := e.1 } := by
        simp [classifyBase, hget]
      rw [h1, h2]
      simp only [ih]
    · have h1 : (classifyBase lm cols pk ic1 e).changeType ≠ ChangeType.REMOVED := by
        rcases classifyBase_eq lm cols pk ic1 e with
          ⟨hg, _⟩ | ⟨lr1, _, _, heq⟩ | ⟨lr1, _, _, heq⟩
        · rw [hget] at hg
          cases hg
        · rw [heq]
          intro hc
          cases hc
        · rw [heq]
          intro hc
          cases hc
      have h2 : (classifyBase lm cols pk ic2 e).changeType ≠ ChangeType.REMOVED := by
        rcases classifyBase_eq lm cols pk ic2 e with
          ⟨hg, _⟩ | ⟨lr1, _, _, heq⟩ | ⟨lr1, _, _, heq⟩
        · rw [hget] at hg
          cases hg
        · rw [heq]
          intro hc
          cases hc
        · rw [heq]
          intro hc
          cases hc
      rw [if_neg (by simp [h1]), if_neg (by simp [h2])]
      exact ih

/-- Claim C9: two runs differing only in `ignoreCase` index the same keys and
match the same key pairs, so the row-id sequence, the NEW rows, the REMOVED
rows, and the new/removed counters coincide. -/
theorem claim_C9 (b l : FileData) (pk : String) (ic1 ic2 : Bool) :
    ((compareDatasets b l ⟨pk, ic1⟩).rows.map fun r => r.rowId)
        = ((compareDatasets b l ⟨pk, ic2⟩).rows.map fun r => r.rowId)
    ∧ ((compareDatasets b l ⟨pk, ic1⟩).rows.filter
          fun r => r.changeType == ChangeType.NEW)
        = ((compareDatasets b l ⟨pk, ic2⟩).rows.filter
            fun r => r.changeType == ChangeType.NEW)
    ∧ ((compareDatasets b l ⟨pk, ic1⟩).rows.filter
          fun r => r.changeType == ChangeType.REMOVED)
        = ((compareDatasets b l ⟨pk, ic2⟩).rows.filter
            fun r => r.changeType == ChangeType.REMOVED)
    ∧ (compareDatasets b l ⟨pk, ic1⟩).stats.new
        = (compareDatasets b l ⟨pk, ic2⟩).stats.new
    ∧ (compareDatasets b l ⟨pk, ic1⟩).stats.removed
        = (compareDatasets b l ⟨pk, ic2⟩).stats.removed := by
  have hnew : ((compareDatasets b l ⟨pk, ic1⟩).rows.filter
        fun r => r.changeType == ChangeType.NEW)
      = ((compareDatasets b l ⟨pk, ic2⟩).rows.filter
          fun r => r.changeType == ChangeType.NEW) := by
    rw [compareDatasets_rows, compareDatasets_rows, List.filter_append,
      List.filter_append, filter_new_map_classify, filter_new_map_classify]
  have hrem : ((compareDatasets b l ⟨pk, ic1⟩).rows.filter
        fun r => r.changeType == ChangeType.REMOVED)
      = ((compareDatasets b l ⟨pk, ic2⟩).rows.filter
          fun r => r.changeType == ChangeType.REMOVED) := by
    rw [compareDatasets_rows, compareDatasets_rows, List.filter_append,
      List.filter_append, filter_removed_filterMap_new,
      List.append_nil, List.append_nil]
    exact filter_removed_map_classify _ _ _ ic1 ic2 _
  refine ⟨?_, hnew, hrem, ?_, ?_⟩
  · rw [rows_map_rowId, rows_map_rowId]
  · show ((compareDatasets b l ⟨pk, ic1⟩).rows.countP
        fun r => r.changeType == ChangeType.NEW)
      = ((compareDatasets b l ⟨pk, ic2⟩).rows.countP
          fun r => r.changeType == ChangeType.NEW)
    rw [List.countP_eq_length_filter, List.countP_eq_length_filter, hnew]
  · show ((compareDatasets b l ⟨pk, ic1⟩).rows.countP
        fun r => r.changeType == ChangeType.REMOVED)
      = ((compareDatasets b l ⟨pk, ic2⟩).rows.countP
          fun r => r.changeType == ChangeType.REMOVED)
    rw [List.countP_eq_length_filter, List.countP_eq_length_filter, hrem]


/-- Witness for C3 on the sample pair. -/
theorem claim_C3_witness :
    (compareDatasets sampleBase sampleLive sampleCfg).stats.total =
        (compareDatasets sampleBase sampleLive sampleCfg).stats.new
        + (compareDatasets sampleBase sampleLive sampleCfg).stats.updated
        + (compareDatasets sampleBase sampleLive sampleCfg).stats.removed
        + (compareDatasets sampleBase sampleLive sampleCfg).stats.unchanged :=
  (claim_C3 sampleBase sampleLive sampleCfg).1

/-- Witness for C8 on the sample pair. -/
theorem claim_C8_witness :
    ∃ A B, (compareDatasets sampleBase sampleLive sampleCfg).rows = A ++ B
      ∧ (∀ r ∈ A, r.changeType ≠ ChangeType.NEW)
      ∧ (∀ r ∈ B, r.changeType = ChangeType.NEW)
      ∧ (A.map fun r => r.rowId) =
          dedupKeep (sampleBase.data.filterMap (validKeyString sampleCfg.primaryKey))
      ∧ (B.map fun r => r.rowId) =
          (dedupKeep (sampleLive.data.filterMap
            (validKeyString sampleCfg.primaryKey))).filter
            (fun k => !(mapHas (buildIndex sampleBase.data sampleCfg.primaryKey) k)) :=
  claim_C8 sampleBase sampleLive sampleCfg

/-- Witness for C9 on the sample pair with the two flag values. -/
theorem claim_C9_witness :
    ((compareDatasets sampleBase sampleLive ⟨"id", true⟩).rows.map fun r => r.rowId)
      = ((compareDatasets sampleBase sampleLive ⟨"id", false⟩).rows.map
          fun r => r.rowId) :=
  (claim_C9 sampleBase sampleLive "id" true false).1
